import Mathlib

/-!
Shallow embedding of the Auto-blogger repository (src/Main.py, src/main.py)
together with proofs about its string-processing pipeline.

Conventions used throughout:
* Python strings are modelled as Lean `String` (a list of characters);
  `len` is `String.length` / `List.length`.
* `None`-or-absent environment values are modelled as `Option String`;
  Python truthiness of a string (`if not val`) is `val.getD "" = ""`.
* Python `str.strip()` is modelled over the ASCII whitespace characters
  (space, tab, newline, carriage return, vertical tab, form feed); the
  Unicode whitespace extension of CPython is not needed by any input
  considered here.
* Python `str.lower()` is modelled by ASCII case mapping (`Char.toLower`);
  the exotic Unicode one-to-many case foldings do not affect any claim,
  because the immediately following filter keeps only `[a-z0-9- ]`.
* Calls to remote services (OpenAI chat completions, HTTP requests)
  are modelled as oracle function parameters, so theorems quantify over
  every possible response of the remote service.
-/

namespace AutoBlogger

/-- Whitespace class used by Python `str.strip()` and by the regex `\s`
(ASCII fragment). -/
def pySpace (c : Char) : Bool :=
  c = ' ' || c = '\t' || c = '\n' || c = '\r' || c = '\x0b' || c = '\x0c'

/-- Python `str.strip()` on a character list: drop whitespace from both ends. -/
def pyStripList (l : List Char) : List Char :=
  ((l.dropWhile pySpace).reverse.dropWhile pySpace).reverse

/-- Python `str.strip()` on strings. -/
def pyStrip (s : String) : String :=
  String.mk (pyStripList s.toList)

/-- Scan for the first `>` in the list; on success return the characters
after it.  This is the tail of matching the regex fragment `[^>]+>`. -/
def seekGt : List Char → Option (List Char)
  | [] => none
  | c :: cs => if c = '>' then some cs else seekGt cs

/-- Given the characters that follow a `<`, decide whether the regex
`<[^>]+>` matches here: at least one non-`>` character followed by a `>`.
On success return the characters after the closing `>`. -/
def findTagEnd : List Char → Option (List Char)
  | [] => none
  | c :: cs => if c = '>' then none else seekGt cs

/-- Fuelled implementation of `re.sub(r"<[^>]+>", "", ·)`: repeatedly delete
the leftmost match of `<[^>]+>`.  The fuel only needs to dominate the list
length, which `stripTags` arranges; keeping the recursion structural lets
every theorem below be checked by evaluation. -/
def stripTagsF : Nat → List Char → List Char
  | 0, l => l
  | _ + 1, [] => []
  | fuel + 1, c :: cs =>
    if c = '<' then
      match findTagEnd cs with
      | some rest => stripTagsF fuel rest
      | none => c :: stripTagsF fuel cs
    else c :: stripTagsF fuel cs

/-- `re.sub(r"<[^>]+>", "", ·)` on character lists. -/
def stripTags (l : List Char) : List Char := stripTagsF l.length l

theorem stripTagsF_nil (f : Nat) : stripTagsF f [] = [] := by
  cases f <;> rfl

theorem seekGt_some_length {l r : List Char} (h : seekGt l = some r) :
    r.length < l.length := by
  induction l with
  | nil => simp [seekGt] at h
  | cons c cs ih =>
    by_cases hc : c = '>'
    · simp [seekGt, hc] at h
      subst h; simp
    · simp [seekGt, hc] at h
      exact Nat.lt_succ_of_lt (ih h)

theorem findTagEnd_some_length {l r : List Char} (h : findTagEnd l = some r) :
    r.length < l.length := by
  cases l with
  | nil => simp [findTagEnd] at h
  | cons c cs =>
    by_cases hc : c = '>'
    · simp [findTagEnd, hc] at h
    · simp [findTagEnd, hc] at h
      exact Nat.lt_succ_of_lt (seekGt_some_length h)

theorem seekGt_some_decomp {l r : List Char} (h : seekGt l = some r) :
    ∃ u, l = u ++ '>' :: r ∧ '>' ∉ u := by
  induction l with
  | nil => simp [seekGt] at h
  | cons c cs ih =>
    by_cases hc : c = '>'
    · simp [seekGt, hc] at h
      subst hc; subst h
      exact ⟨[], rfl, by simp⟩
    · simp [seekGt, hc] at h
      obtain ⟨u, hu, hmem⟩ := ih h
      exact ⟨c :: u, by simp [hu], by simp [hmem, Ne.symm, hc]⟩

theorem seekGt_none_iff {l : List Char} : seekGt l = none ↔ '>' ∉ l := by
  induction l with
  | nil => simp [seekGt]
  | cons c cs ih =>
    by_cases hc : c = '>'
    · simp [seekGt, hc]
    · simp [seekGt, hc, ih, Ne.symm hc]

theorem findTagEnd_some_decomp {l r : List Char} (h : findTagEnd l = some r) :
    ∃ w, l = w ++ '>' :: r ∧ w ≠ [] ∧ '>' ∉ w := by
  cases l with
  | nil => simp [findTagEnd] at h
  | cons c cs =>
    by_cases hc : c = '>'
    · simp [findTagEnd, hc] at h
    · simp [findTagEnd, hc] at h
      obtain ⟨u, hu, hmem⟩ := seekGt_some_decomp h
      exact ⟨c :: u, by simp [hu], by simp, by simp [hmem, Ne.symm, hc]⟩

theorem findTagEnd_none_of_not_mem {l : List Char} (h : '>' ∉ l) :
    findTagEnd l = none := by
  cases l with
  | nil => rfl
  | cons c cs =>
    have hc : c ≠ '>' := fun hcc => h (by simp [hcc])
    have : '>' ∉ cs := fun hcc => h (by simp [hcc])
    simp [findTagEnd, hc, seekGt_none_iff.mpr this]

theorem stripTagsF_congr :
    ∀ n f g (l : List Char), l.length ≤ n → l.length ≤ f → l.length ≤ g →
      stripTagsF f l = stripTagsF g l := by
  intro n
  induction n with
  | zero =>
    intro f g l hn _ _
    have : l = [] := List.eq_nil_of_length_eq_zero (Nat.le_zero.mp hn)
    subst this
    rw [stripTagsF_nil, stripTagsF_nil]
  | succ n ih =>
    intro f g l hn hf hg
    match l with
    | [] => rw [stripTagsF_nil, stripTagsF_nil]
    | c :: cs =>
      obtain ⟨f', rfl⟩ : ∃ f', f = f' + 1 :=
        ⟨f - 1, by simp at hf; omega⟩
      obtain ⟨g', rfl⟩ : ∃ g', g = g' + 1 :=
        ⟨g - 1, by simp at hg; omega⟩
      have hcs : cs.length ≤ n := by simp at hn; omega
      have hcf : cs.length ≤ f' := by simp at hf; omega
      have hcg : cs.length ≤ g' := by simp at hg; omega
      simp only [stripTagsF]
      by_cases hc : c = '<'
      · simp only [hc, if_pos rfl]
        cases hft : findTagEnd cs with
        | none => rw [ih f' g' cs hcs hcf hcg]
        | some rest =>
          have hr := findTagEnd_some_length hft
          exact ih f' g' rest (by omega) (by omega) (by omega)
      · simp only [if_neg hc]
        rw [ih f' g' cs hcs hcf hcg]

theorem stripTags_nil : stripTags [] = [] := rfl

theorem stripTags_tag {cs rest : List Char} (h : findTagEnd cs = some rest) :
    stripTags ('<' :: cs) = stripTags rest := by
  have hr := findTagEnd_some_length h
  show stripTagsF (cs.length + 1) ('<' :: cs) = stripTagsF rest.length rest
  simp only [stripTagsF, if_pos rfl, h]
  exact stripTagsF_congr cs.length cs.length rest.length rest (by omega) (by omega) le_rfl

theorem stripTags_lt_none {cs : List Char} (h : findTagEnd cs = none) :
    stripTags ('<' :: cs) = '<' :: stripTags cs := by
  show stripTagsF (cs.length + 1) ('<' :: cs) = '<' :: stripTagsF cs.length cs
  simp [stripTagsF, h]

theorem stripTags_cons_ne {c : Char} {cs : List Char} (h : c ≠ '<') :
    stripTags (c :: cs) = c :: stripTags cs := by
  show stripTagsF (cs.length + 1) (c :: cs) = c :: stripTagsF cs.length cs
  simp only [stripTagsF, if_neg h]

/-- Induction principle following the recursion structure of `stripTags`. -/
theorem stripTags_induction (P : List Char → Prop)
    (h0 : P [])
    (h1 : ∀ cs rest, findTagEnd cs = some rest → P rest → P ('<' :: cs))
    (h2 : ∀ cs, findTagEnd cs = none → P cs → P ('<' :: cs))
    (h3 : ∀ c cs, c ≠ '<' → P cs → P (c :: cs)) :
    ∀ l, P l := by
  have main : ∀ n (l : List Char), l.length ≤ n → P l := by
    intro n
    induction n with
    | zero =>
      intro l hn
      have : l = [] := List.eq_nil_of_length_eq_zero (Nat.le_zero.mp hn)
      subst this; exact h0
    | succ n ih =>
      intro l hn
      match l with
      | [] => exact h0
      | c :: cs =>
        have hcs : cs.length ≤ n := by simp at hn; omega
        by_cases hc : c = '<'
        · subst hc
          cases hft : findTagEnd cs with
          | none => exact h2 cs hft (ih cs hcs)
          | some rest =>
            have hr := findTagEnd_some_length hft
            exact h1 cs rest hft (ih rest (by omega))
        · exact h3 c cs hc (ih cs hcs)
  exact fun l => main l.length l le_rfl

theorem mem_of_mem_stripTags {a : Char} :
    ∀ {l : List Char}, a ∈ stripTags l → a ∈ l := by
  have : ∀ l : List Char, a ∈ stripTags l → a ∈ l := by
    refine stripTags_induction (fun l => a ∈ stripTags l → a ∈ l) ?_ ?_ ?_ ?_
    · intro h; simp [stripTags_nil] at h
    · intro cs rest hft ih h
      rw [stripTags_tag hft] at h
      obtain ⟨w, hw, -, -⟩ := findTagEnd_some_decomp hft
      have : a ∈ rest := ih h
      simp [hw]
      tauto
    · intro cs hft ih h
      rw [stripTags_lt_none hft] at h
      rcases List.mem_cons.mp h with h | h
      · simp [h]
      · simp [ih h]
    · intro c cs hc ih h
      rw [stripTags_cons_ne hc] at h
      rcases List.mem_cons.mp h with h | h
      · simp [h]
      · simp [ih h]
  exact fun {l} => this l

theorem findTagEnd_stripTags_none {l : List Char} (h : findTagEnd l = none) :
    findTagEnd (stripTags l) = none := by
  cases l with
  | nil => simpa [stripTags_nil] using h
  | cons c cs =>
    by_cases hc : c = '>'
    · subst hc
      rw [stripTags_cons_ne (by decide)]
      rfl
    · simp [findTagEnd, hc] at h
      have hnotc : '>' ∉ c :: cs := by
        simp [Ne.symm hc, seekGt_none_iff.mp h]
      have : '>' ∉ stripTags (c :: cs) := fun hm => hnotc (mem_of_mem_stripTags hm)
      exact findTagEnd_none_of_not_mem this

/-- Output of `stripTags` contains no further match of `<[^>]+>`: after any
`<` in the output, the regex fails to match. -/
theorem stripTags_clean :
    ∀ l p q, stripTags l = p ++ '<' :: q → findTagEnd q = none := by
  refine stripTags_induction
    (fun l => ∀ p q, stripTags l = p ++ '<' :: q → findTagEnd q = none) ?_ ?_ ?_ ?_
  · intro p q h
    rw [stripTags_nil] at h
    exact absurd h (by simp)
  · intro cs rest hft ih p q h
    rw [stripTags_tag hft] at h
    exact ih p q h
  · intro cs hft ih p q h
    rw [stripTags_lt_none hft] at h
    match p with
    | [] =>
      simp at h
      rw [← h]
      exact findTagEnd_stripTags_none hft
    | x :: p' =>
      simp at h
      exact ih p' q h.2
  · intro c cs hc ih p q h
    rw [stripTags_cons_ne hc] at h
    match p with
    | [] => simp at h; exact absurd h.1 hc
    | x :: p' =>
      simp at h
      exact ih p' q h.2

theorem stripTags_idem : ∀ l : List Char, stripTags (stripTags l) = stripTags l := by
  refine stripTags_induction (fun l => stripTags (stripTags l) = stripTags l) ?_ ?_ ?_ ?_
  · simp [stripTags_nil]
  · intro cs rest hft ih
    rw [stripTags_tag hft, ih]
  · intro cs hft ih
    rw [stripTags_lt_none hft,
      stripTags_lt_none (findTagEnd_stripTags_none hft), ih]
  · intro c cs hc ih
    rw [stripTags_cons_ne hc, stripTags_cons_ne hc, ih]

/-- One pass of deleting disjoint `<`…`>` spans: `TagRemoval l r` holds when
`r` is obtained from `l` by deleting spans of the shape `<` + (non-empty,
`>`-free word) + `>` and keeping every other character. -/
inductive TagRemoval : List Char → List Char → Prop where
  | nil : TagRemoval [] []
  | keep (c : Char) {l r : List Char} : TagRemoval l r → TagRemoval (c :: l) (c :: r)
  | tag (w : List Char) {l r : List Char} (hw : w ≠ []) (hgt : '>' ∉ w) :
      TagRemoval l r → TagRemoval ('<' :: (w ++ '>' :: l)) r

/-- No substring of `r` matches `<[^>]+>`. -/
def NoSpan (r : List Char) : Prop :=
  ∀ p q, r = p ++ '<' :: q → findTagEnd q = none

theorem stripTags_removal : ∀ l : List Char, TagRemoval l (stripTags l) := by
  refine stripTags_induction (fun l => TagRemoval l (stripTags l)) ?_ ?_ ?_ ?_
  · show TagRemoval [] (stripTags [])
    rw [stripTags_nil]; exact TagRemoval.nil
  · intro cs rest hft ih
    obtain ⟨w, hw, hne, hmem⟩ := findTagEnd_some_decomp hft
    rw [stripTags_tag hft, hw]
    exact TagRemoval.tag w hne hmem ih
  · intro cs hft ih
    rw [stripTags_lt_none hft]
    exact TagRemoval.keep '<' ih
  · intro c cs hc ih
    rw [stripTags_cons_ne hc]
    exact TagRemoval.keep c ih

theorem seekGt_append_some {u v r : List Char} (h : seekGt u = some r) :
    seekGt (u ++ v) = some (r ++ v) := by
  induction u with
  | nil => simp [seekGt] at h
  | cons c cs ih =>
    by_cases hc : c = '>'
    · simp [seekGt, hc] at h ⊢
      simp [h]
    · simp [seekGt, hc] at h ⊢
      exact ih h

theorem seekGt_append_none {u : List Char} (h : seekGt u = none) (v : List Char) :
    seekGt (u ++ v) = seekGt v := by
  induction u with
  | nil => simp
  | cons c cs ih =>
    by_cases hc : c = '>'
    · simp [seekGt, hc] at h
    · simp [seekGt, hc] at h ⊢
      exact ih h

theorem pyStripList_length_le (l : List Char) : (pyStripList l).length ≤ l.length := by
  unfold pyStripList
  calc ((l.dropWhile pySpace).reverse.dropWhile pySpace).reverse.length
      = ((l.dropWhile pySpace).reverse.dropWhile pySpace).length := by
        rw [List.length_reverse]
    _ ≤ (l.dropWhile pySpace).reverse.length :=
        (List.dropWhile_sublist pySpace).length_le
    _ = (l.dropWhile pySpace).length := by rw [List.length_reverse]
    _ ≤ l.length := (List.dropWhile_sublist pySpace).length_le

/-- The closing shell appended by the length fallback of src/Main.py. -/
def closeShell : List Char := "</p></section>".toList

/-- The opening shell prepended by the length fallback of src/Main.py. -/
def openShell : List Char := "<section><p>".toList

theorem stripTags_append_closeShell :
    ∀ n (s : List Char), s.length ≤ n →
      (stripTags (s ++ closeShell)).length ≤ s.length := by
  intro n
  induction n with
  | zero =>
    intro s hn
    have hs : s = [] := List.eq_nil_of_length_eq_zero (Nat.le_zero.mp hn)
    subst hs
    have h0 : stripTags closeShell = [] := rfl
    simp [h0]
  | succ n ih =>
    intro s hn
    cases s with
    | nil =>
      have h0 : stripTags closeShell = [] := rfl
      simp [h0]
    | cons c cs =>
      have hcs : cs.length ≤ n := by simp at hn; omega
      by_cases hc : c = '<'
      · subst hc
        cases cs with
        | nil =>
          have h1 : findTagEnd closeShell = some ("</section>".toList) := rfl
          have h2 : stripTags ("</section>".toList) = [] := rfl
          have e : ('<' :: ([] : List Char)) ++ closeShell = '<' :: closeShell := rfl
          rw [e, stripTags_tag h1, h2]
          simp
        | cons c₀ cs' =>
          have hcs' : cs'.length + 1 ≤ n := by simpa using hcs
          have e : ('<' :: c₀ :: cs') ++ closeShell
              = '<' :: ((c₀ :: cs') ++ closeShell) := rfl
          by_cases hc₀ : c₀ = '>'
          · subst hc₀
            have hft : findTagEnd (('>' :: cs') ++ closeShell) = none := rfl
            have e2 : ('>' :: cs') ++ closeShell = '>' :: (cs' ++ closeShell) := rfl
            rw [e, stripTags_lt_none hft, e2,
              stripTags_cons_ne (by decide : ('>' : Char) ≠ '<')]
            have hle := ih cs' (by omega)
            simp only [List.length_cons]
            omega
          · by_cases hm : '>' ∈ cs'
            · obtain ⟨r, hr⟩ : ∃ r, seekGt cs' = some r := by
                cases hsg : seekGt cs' with
                | none => exact absurd (seekGt_none_iff.mp hsg) (by simp [hm])
                | some r => exact ⟨r, rfl⟩
              have hrlen := seekGt_some_length hr
              have hft : findTagEnd ((c₀ :: cs') ++ closeShell)
                  = some (r ++ closeShell) := by
                have e3 : (c₀ :: cs') ++ closeShell = c₀ :: (cs' ++ closeShell) := rfl
                rw [e3]
                simp [findTagEnd, hc₀, seekGt_append_some hr]
              rw [e, stripTags_tag hft]
              have hle := ih r (by omega)
              simp only [List.length_cons]
              omega
            · have hsg : seekGt cs' = none := seekGt_none_iff.mpr hm
              have hseek : seekGt closeShell = some ("</section>".toList) := rfl
              have hft : findTagEnd ((c₀ :: cs') ++ closeShell)
                  = some ("</section>".toList) := by
                have e3 : (c₀ :: cs') ++ closeShell = c₀ :: (cs' ++ closeShell) := rfl
                rw [e3]
                simp [findTagEnd, hc₀, seekGt_append_none hsg, hseek]
              have h2 : stripTags ("</section>".toList) = [] := rfl
              rw [e, stripTags_tag hft, h2]
              simp
      · have e : (c :: cs) ++ closeShell = c :: (cs ++ closeShell) := rfl
        rw [e, stripTags_cons_ne hc]
        have hle := ih cs hcs
        simp only [List.length_cons]
        omega

/-- Stripping tags from the fallback shell `<section><p>` + s + `</p></section>`
yields at most `s.length` characters: the shell tags are removed, and span
matches crossing from `s` into the shell only delete more. -/
theorem stripTags_shell_length_le (s : List Char) :
    (stripTags (openShell ++ s ++ closeShell)).length ≤ s.length := by
  have h1 : seekGt ("ection>".toList ++ ("<p>".toList ++ (s ++ closeShell)))
      = some ([] ++ ("<p>".toList ++ (s ++ closeShell))) :=
    seekGt_append_some (u := "ection>".toList) rfl
  have hft1 : findTagEnd ("section><p>".toList ++ (s ++ closeShell))
      = some ("<p>".toList ++ (s ++ closeShell)) := by
    show findTagEnd ('s' :: ("ection>".toList ++ ("<p>".toList ++ (s ++ closeShell)))) = _
    simp only [findTagEnd, if_neg (by decide : ¬('s' = '>')), h1, List.nil_append]
  have e1 : openShell ++ s ++ closeShell
      = '<' :: ("section><p>".toList ++ (s ++ closeShell)) := by
    show ("<section><p>".toList) ++ s ++ closeShell = _
    simp [show "<section><p>".toList = '<' :: "section><p>".toList from rfl]
  have hft2 : findTagEnd ("p>".toList ++ (s ++ closeShell)) = some (s ++ closeShell) := by
    show findTagEnd ('p' :: ('>' :: (s ++ closeShell))) = _
    simp [findTagEnd, seekGt]
  have e2 : "<p>".toList ++ (s ++ closeShell) = '<' :: ("p>".toList ++ (s ++ closeShell)) := rfl
  calc (stripTags (openShell ++ s ++ closeShell)).length
      = (stripTags (s ++ closeShell)).length := by
        rw [e1, stripTags_tag hft1, e2, stripTags_tag hft2]
    _ ≤ s.length := stripTags_append_closeShell s.length s le_rfl

/-- Characters kept by the regex substitution `re.sub(r"[^a-z0-9\- ]+", "", ·)`
in `slugify`. -/
def slugAllowed (c : Char) : Bool :=
  ('a' ≤ c && c ≤ 'z') || ('0' ≤ c && c ≤ '9') || c = '-' || c = ' '

/-- `re.sub(r"\s+", "-", ·)`: replace every maximal run of whitespace by a
single hyphen.  The boolean records whether we are inside a run whose hyphen
was already emitted. -/
def collapseSpaces : Bool → List Char → List Char
  | _, [] => []
  | inRun, c :: cs =>
    if pySpace c then
      if inRun then collapseSpaces true cs else '-' :: collapseSpaces true cs
    else c :: collapseSpaces false cs

/-- Python `str.strip("-")`: drop hyphens from both ends. -/
def stripDashesList (l : List Char) : List Char :=
  ((l.dropWhile (fun c => c = '-')).reverse.dropWhile (fun c => c = '-')).reverse

/-- `slugify` from src/Main.py lines 52-56; src/main.py lines 37-41 is
character-for-character the same computation (its final line
`return t[:80] or "post"` tests the truncated text, which is empty exactly
when the untruncated text is, so both variants agree). -/
def slugify (text : String) : String :=
  let t1 := text.toList.map Char.toLower
  let t2 := t1.filter slugAllowed
  let t3 := collapseSpaces false t2
  let t4 := stripDashesList t3
  let t5 := t4.take 80
  if t5.isEmpty then "post" else String.mk t5

/-- A source article as delivered by the GDELT `artlist` JSON. -/
structure Article where
  title : String
  seendate : String
  url : String
deriving DecidableEq, Repr

/-- The JSON value returned by a successful GDELT request, restricted to the
field the program reads (`data.get("articles", [])`). -/
structure GdeltResponse where
  articles : List Article
deriving DecidableEq, Repr

/-- Outcome of one attempt of `requests.get` inside `fetch_gdelt`:
either an HTTP response with a status code and an optional parsed JSON body
(`none` models `r.json()` raising), or a raised exception from the request
itself. -/
inductive FetchOutcome where
  | response (status : Nat) (body : Option GdeltResponse)
  | failure
deriving DecidableEq, Repr

/-- Metadata parsed from the draft-generation model's JSON answer
(src/Main.py `generate_article`); absent optional keys are modelled as `""`,
matching the falsy treatment at the use sites. -/
structure DraftMeta where
  title : String
  meta_description : String
  keywords : String
  hero_alt : String
  image_style : String
  body_html : String
deriving DecidableEq, Repr

/-- Pipeline stages of src/Main.py `main`, used to record which stages a run
invokes. -/
inductive Stage where
  | fetch
  | generate
  | image
  | render
  | save
deriving DecidableEq, Repr

namespace Gdelt

/-! Embedding of src/Main.py (the GDELT + image-generation variant). -/

/-- Plain-text length floor of src/Main.py. -/
def TARGET_MIN : Nat := 1800

/-- Plain-text length ceiling of src/Main.py. -/
def TARGET_MAX : Nat := 2200

/-- Fixed topic query of src/Main.py. -/
def QUERY : String := "korea economic growth"

/-- `strip_html` from src/Main.py lines 58-59:
`re.sub(r"<[^>]+>", "", text or "").strip()`. -/
def strip_html (text : String) : String :=
  String.mk (pyStripList (stripTags text.toList))

/-- `fetch_gdelt` retry loop (src/Main.py lines 41-50), with the three
`requests.get` outcomes supplied by `oracle` (attempt index ↦ outcome).
Returns the result together with the list of sleep durations performed (in
seconds, in order) and the number of attempts made.  Mirrors the source:
status 200 returns `r.json()` (a parse failure raises, is caught, and sleeps
3); status 429 sleeps 6; any other status retries immediately; a raised
request exception sleeps 3; after the loop the fallback `{"articles": []}`
is returned. -/
def fetchAux (oracle : Nat → FetchOutcome) : Nat → Nat → GdeltResponse × List Nat × Nat
  | i, 0 => (⟨[]⟩, [], i)
  | i, fuel + 1 =>
    match oracle i with
    | FetchOutcome.response status body =>
      if status = 200 then
        match body with
        | some j => (j, [], i + 1)
        | none =>
          let r := fetchAux oracle (i + 1) fuel
          (r.1, 3 :: r.2.1, r.2.2)
      else if status = 429 then
        let r := fetchAux oracle (i + 1) fuel
        (r.1, 6 :: r.2.1, r.2.2)
      else
        fetchAux oracle (i + 1) fuel
    | FetchOutcome.failure =>
      let r := fetchAux oracle (i + 1) fuel
      (r.1, 3 :: r.2.1, r.2.2)

/-- `fetch_gdelt` (src/Main.py lines 32-50): `for _ in range(3)` attempts. -/
def fetch_gdelt (oracle : Nat → FetchOutcome) : GdeltResponse × List Nat × Nat :=
  fetchAux oracle 0 3

/-- Sleep duration (if any) that one attempt outcome causes inside the
`fetch_gdelt` loop. -/
def sleepOf : FetchOutcome → Option Nat
  | FetchOutcome.response status body =>
    if status = 200 then
      match body with
      | some _ => none
      | none => some 3
    else if status = 429 then some 6
    else none
  | FetchOutcome.failure => some 3

/-- Sentence-end punctuation of the fallback split
`re.split(r"(?<=[\.!?])\s+", ...)` in src/Main.py line 151. -/
def isSentEnd : Option Char → Bool
  | some c => c = '.' || c = '!' || c = '?'
  | none => false

/-- Character-level implementation of `re.split(r"(?<=[\.!?])\s+", ·)`:
split at every maximal whitespace run that immediately follows a sentence
punctuation character; the run itself is the separator and is dropped.
`insep` records being inside such a run, `acc` the current (reversed) part,
`prev` the previous character (the lookbehind). -/
def sentSplitAux (insep : Bool) (acc : List Char) (prev : Option Char) :
    List Char → List (List Char)
  | [] => [acc.reverse]
  | c :: cs =>
    if insep && pySpace c then
      sentSplitAux true acc prev cs
    else if !insep && pySpace c && isSentEnd prev then
      acc.reverse :: sentSplitAux true [] (some c) cs
    else
      sentSplitAux false (c :: acc) (some c) cs

/-- `re.split(r"(?<=[\.!?])\s+", ·)` on a character list. -/
def sentSplit (l : List Char) : List (List Char) :=
  sentSplitAux false [] none l

/-- The `while len(" ".join(parts)) > TARGET_MAX and len(parts) > 1:
parts.pop()` loop of src/Main.py lines 152-153, fuelled by the list length
(each iteration drops exactly one part, so `ps.length` fuel always
suffices). -/
def shrinkLoopF : Nat → List (List Char) → List (List Char)
  | 0, ps => ps
  | fuel + 1, ps =>
    if TARGET_MAX < (List.intercalate [' '] ps).length ∧ 1 < ps.length then
      shrinkLoopF fuel ps.dropLast
    else ps

/-- The sentence-dropping loop of src/Main.py lines 152-153. -/
def shrinkLoop (ps : List (List Char)) : List (List Char) :=
  shrinkLoopF ps.length ps

/-- `shortened = " ".join(parts)` after the loop, for a given corrected
HTML: split the stripped text into sentences, drop trailing sentences while
too long, re-join with single spaces (src/Main.py lines 151-155). -/
def shortenedOf (new_html : String) : List Char :=
  List.intercalate [' '] (shrinkLoop (sentSplit (strip_html new_html).toList))

/-- The final safety check of `adjust_length_with_model`
(src/Main.py lines 147-160): if the corrected HTML's plain text still
exceeds the ceiling, compute the sentence-truncated text; if that text
reaches the floor, replace the whole output by the single-paragraph shell,
otherwise return the corrected HTML unchanged. -/
def adjustFallback (new_html : String) : String :=
  if TARGET_MAX < (strip_html new_html).length then
    if TARGET_MIN ≤ (shortenedOf new_html).length then
      "<section><p>" ++ String.mk (shortenedOf new_html) ++ "</p></section>"
    else new_html
  else new_html

/-- The corrective prompt f-string of src/Main.py lines 132-139. -/
def correctionPrompt (direction : String) (goal : Nat) (html_text : String) : String :=
  "\nI will give you HTML for a blog post body. Please " ++ direction ++
  " the body text so its plain-text length\nis close to " ++ toString goal ++
  " characters. Keep **plain English (grade 7–8)**, short sentences, and the same HTML structure.\nReturn HTML only, no explanations.\n\nCURRENT HTML:\n"
  ++ html_text ++ "\n"

/-- The corrected HTML produced by the single model call of
`adjust_length_with_model` (src/Main.py lines 130-146): build the prompt
from the measured length, send it to the chat model (`model` maps the user
prompt to the response text), and strip the response.  -/
def correctedHtml (model : String → String) (html_text : String) : String :=
  let n := (strip_html html_text).length
  let direction := if TARGET_MAX < n then "shrink" else "expand"
  let goal := (TARGET_MIN + TARGET_MAX) / 2
  pyStrip (model (correctionPrompt direction goal html_text))

/-- `adjust_length_with_model` (src/Main.py lines 124-160).  The second
component counts the corrective chat-completion calls made (0 or 1). -/
def adjust_length_with_model (model : String → String) (html_text : String) :
    String × Nat :=
  let n := (strip_html html_text).length
  if TARGET_MIN ≤ n ∧ n ≤ TARGET_MAX then (html_text, 0)
  else (adjustFallback (correctedHtml model html_text), 1)

/-- `generate_article` (src/Main.py lines 106-122) after the first model
call: `genO` stands for the chat completion plus JSON parse producing the
draft metadata, `fixO` for the corrective model of the length pass. -/
def generate_article (genO : List Article → String → DraftMeta)
    (fixO : String → String) (articles : List Article) (query : String) : DraftMeta :=
  let data := genO articles query
  { data with body_html := (adjust_length_with_model fixO data.body_html).1 }

/-- `render_html` (src/Main.py lines 168-193): fixed template interpolation. -/
def render_html (meta : DraftMeta) (hero_url : String) : String :=
  "<!doctype html>\n<html lang=\"en\">\n<head>\n  <meta charset=\"utf-8\">\n  <title>"
  ++ meta.title ++ "</title>\n  <meta name=\"description\" content=\""
  ++ meta.meta_description ++ "\">\n  <meta name=\"keywords\" content=\""
  ++ meta.keywords ++ "\">\n</head>\n<body>\n  <article>\n    <h1>"
  ++ meta.title ++ "</h1>\n    <figure>\n      <img src=\"" ++ hero_url
  ++ "\" alt=\"" ++ meta.hero_alt ++ "\">\n    </figure>\n    "
  ++ meta.body_html ++ "\n  </article>\n</body>\n</html>"

/-- The startup guard of src/Main.py lines 20-22: a missing or empty
`OPENAI_API_KEY` raises `SystemExit` with this message (a non-zero process
exit) before the OpenAI client or any network call is created. -/
def missingKeyMsg : String :=
  "❌ OPENAI_API_KEY 환경변수가 필요합니다. (GitHub Actions에서는 Secrets로 넣습니다)"

/-- Startup environment check of src/Main.py lines 20-22, with `SystemExit`
modelled as `Except.error` carrying the printed message. -/
def startupCheck (env : String → Option String) : Except String Unit :=
  if (env "OPENAI_API_KEY").getD "" = "" then Except.error missingKeyMsg
  else Except.ok ()

/-- `main` (src/Main.py lines 196-214).  External effects are oracles:
`fetchO` the three HTTP attempts, `genO` the draft model + JSON parse,
`fixO` the corrective length model, `imgO` the image model
(`generate_image`), `dateStr` the formatted UTC date.  Returns the
saved (filename, document) pair, if any, together with the list of pipeline
stages the run invoked: when the fetched article list is empty, `main`
prints and returns before any further stage. -/
def mainRun (fetchO : Nat → FetchOutcome) (genO : List Article → String → DraftMeta)
    (fixO : String → String) (imgO : String → String) (dateStr : String) :
    Option (String × String) × List Stage :=
  let data := (fetch_gdelt fetchO).1
  let articles := data.articles
  if articles.isEmpty then (none, [Stage.fetch])
  else
    let meta := generate_article genO fixO articles QUERY
    let img_seed :=
      if meta.image_style ≠ "" then meta.image_style
      else if meta.title ≠ "" then meta.title
      else QUERY
    let hero_url := imgO img_seed
    let slug := slugify meta.title
    let out_name := dateStr ++ "-" ++ slug ++ ".html"
    let html_doc := render_html meta hero_url
    (some (out_name, html_doc), [Stage.fetch, Stage.generate, Stage.image, Stage.render, Stage.save])

end Gdelt

namespace Blogger

/-! Embedding of src/main.py (the Blogger-publishing variant). -/

/-- Plain-text length floor of src/main.py. -/
def TARGET_MIN : Nat := 1500

/-- Plain-text length ceiling of src/main.py. -/
def TARGET_MAX : Nat := 2000

/-- `strip_html` from src/main.py lines 43-44:
`re.sub(r"<[^>]+>", "", text or "")` — note: no trailing `.strip()`. -/
def strip_html (text : String) : String :=
  String.mk (stripTags text.toList)

/-- The corrective prompt of src/main.py line 109. -/
def fixPrompt (body_html : String) : String :=
  "Revise this HTML to ~" ++ toString ((TARGET_MIN + TARGET_MAX) / 2) ++
  " characters (plain text). Keep headings and lists.\n\n" ++ body_html

/-- The length-correction step inside `generate_article`
(src/main.py lines 101-116): measure the plain length; when it is outside
`[TARGET_MIN, TARGET_MAX]` issue exactly one corrective chat call
(`fixModel` maps the user prompt to the response) and keep its stripped
output, otherwise keep the body unchanged.  The second component counts the
corrective calls made. -/
def lengthFix (fixModel : String → String) (body_html : String) : String × Nat :=
  let plain_len := (strip_html body_html).length
  if plain_len < TARGET_MIN ∨ TARGET_MAX < plain_len then
    (pyStrip (fixModel (fixPrompt body_html)), 1)
  else (body_html, 0)

/-- `require_env` (src/main.py lines 17-19): `SystemExit` on a missing or
empty value, modelled as `Except.error` with the printed message. -/
def require_env (name : String) (val : Option String) : Except String Unit :=
  if val.getD "" = "" then
    Except.error ("❌ Missing environment variable: " ++ name)
  else Except.ok ()

/-- The required environment variable names, in the order the startup dict
of src/main.py lines 20-26 iterates them. -/
def requiredEnvNames : List String :=
  ["OPENAI_API_KEY", "CLIENT_ID", "CLIENT_SECRET", "BLOGGER_REFRESH_TOKEN", "BLOGGER_BLOG_ID"]

/-- The startup loop `for k, v in {...}.items(): require_env(k, v)`
over an explicit list of names. -/
def checkEnvList (env : String → Option String) : List String → Except String Unit
  | [] => Except.ok ()
  | n :: rest =>
    match require_env n (env n) with
    | Except.error e => Except.error e
    | Except.ok _ => checkEnvList env rest

/-- The full startup check of src/main.py lines 20-27, executed at module
import, before the OpenAI client is built and before any network call. -/
def checkEnv (env : String → Option String) : Except String Unit :=
  checkEnvList env requiredEnvNames

end Blogger

/-! Toolkit lemmas used to evaluate the embedded functions on the concrete
inputs of the witnesses below without deep kernel reduction. -/

theorem stripTags_of_not_mem {l : List Char} (h : '<' ∉ l) : stripTags l = l := by
  induction l with
  | nil => exact stripTags_nil
  | cons c cs ih =>
    have hc : c ≠ '<' := fun e => h (by simp [e])
    have hcs : '<' ∉ cs := fun m => h (by simp [m])
    rw [stripTags_cons_ne hc, ih hcs]

theorem dropWhile_eq_self_of_head {l : List Char}
    (h : ∀ c, l.head? = some c → pySpace c = false) :
    l.dropWhile pySpace = l := by
  cases l with
  | nil => rfl
  | cons c cs => simp [List.dropWhile_cons, h c rfl]

theorem pyStripList_eq_self {l : List Char}
    (h1 : ∀ c, l.head? = some c → pySpace c = false)
    (h2 : ∀ c, l.getLast? = some c → pySpace c = false) :
    pyStripList l = l := by
  unfold pyStripList
  rw [dropWhile_eq_self_of_head h1,
    dropWhile_eq_self_of_head (fun c hc => h2 c (by rwa [List.head?_reverse] at hc)),
    List.reverse_reverse]

theorem getLast?_replicate_succ (n : Nat) (c : Char) :
    (List.replicate (n + 1) c).getLast? = some c := by
  rw [List.replicate_succ']
  exact List.getLast?_concat _

theorem intercalate_pair (s a b : List Char) : List.intercalate s [a, b] = a ++ (s ++ b) := by
  simp [List.intercalate, List.intersperse]

theorem intercalate_single (s a : List Char) : List.intercalate s [a] = a := by
  simp [List.intercalate, List.intersperse]

theorem sentSplitAux_nil (insep : Bool) (acc : List Char) (prev : Option Char) :
    Gdelt.sentSplitAux insep acc prev [] = [acc.reverse] := rfl

theorem sentSplitAux_nonspace {c : Char} (h : pySpace c = false)
    (insep : Bool) (acc : List Char) (prev : Option Char) (cs : List Char) :
    Gdelt.sentSplitAux insep acc prev (c :: cs)
      = Gdelt.sentSplitAux false (c :: acc) (some c) cs := by
  simp [Gdelt.sentSplitAux, h]

theorem sentSplitAux_break {c : Char} {prev : Option Char}
    (h1 : pySpace c = true) (h2 : Gdelt.isSentEnd prev = true)
    (acc : List Char) (cs : List Char) :
    Gdelt.sentSplitAux false acc prev (c :: cs)
      = acc.reverse :: Gdelt.sentSplitAux true [] (some c) cs := by
  simp [Gdelt.sentSplitAux, h1, h2]

theorem sentSplitAux_run {c : Char} (h : pySpace c = false) :
    ∀ (n : Nat) (insep : Bool) (acc : List Char) (prev : Option Char) (rest : List Char),
      Gdelt.sentSplitAux insep acc prev (List.replicate (n + 1) c ++ rest)
        = Gdelt.sentSplitAux false (List.replicate (n + 1) c ++ acc) (some c) rest := by
  intro n
  induction n with
  | zero =>
    intro insep acc prev rest
    simpa [List.replicate_succ] using sentSplitAux_nonspace h insep acc prev rest
  | succ n ih =>
    intro insep acc prev rest
    have e1 : List.replicate (n + 2) c ++ rest
        = c :: (List.replicate (n + 1) c ++ rest) := by
      simp [List.replicate_succ]
    have e2 : List.replicate (n + 2) c ++ acc
        = List.replicate (n + 1) c ++ (c :: acc) := by
      rw [List.replicate_succ' (n + 1) c]
      simp
    rw [e1, sentSplitAux_nonspace h, ih, e2]

/-! Concrete model responses used by the witnesses and counterexamples. -/

/-- A corrected draft: one 2000-character sentence followed by a 500-character
sentence fragment (plain length 2501). -/
def w1Body : String :=
  String.mk (List.replicate 1999 'a') ++ ". " ++ String.mk (List.replicate 500 'b')

/-- A model oracle that always answers `w1Body`. -/
def w1Model : String → String := fun _ => w1Body

/-- A corrected draft: a two-character sentence followed by one 2200-character
sentence with no further punctuation (plain length 2203). -/
def w2Body : String := "A. " ++ String.mk (List.replicate 2200 'b')

/-- A model oracle that always answers `w2Body`. -/
def w2Model : String → String := fun _ => w2Body

/-- A body whose plain-text length (1900) lies inside both target windows. -/
def inRangeBody : String := String.mk (List.replicate 1900 'a')

/-- The identity oracle (the model echoes the prompt). -/
def idModel : String → String := fun s => s

theorem w1_toList :
    w1Body.toList
      = (List.replicate 1999 'a' ++ ['.', ' ']) ++ List.replicate 500 'b' := rfl

theorem w2_toList : w2Body.toList = 'A' :: '.' :: ' ' :: List.replicate 2200 'b' := rfl

theorem w1_no_lt : '<' ∉ w1Body.toList := by
  rw [w1_toList]
  intro hmem
  rcases List.mem_append.mp hmem with h | h
  · rcases List.mem_append.mp h with h2 | h2
    · exact absurd (List.eq_of_mem_replicate h2) (by decide)
    · exact absurd h2 (by decide)
  · exact absurd (List.eq_of_mem_replicate h) (by decide)

theorem w2_no_lt : '<' ∉ w2Body.toList := by
  rw [w2_toList]
  intro hmem
  simp only [List.mem_cons] at hmem
  rcases hmem with h | h | h | h
  · exact absurd h (by decide)
  · exact absurd h (by decide)
  · exact absurd h (by decide)
  · exact absurd (List.eq_of_mem_replicate h) (by decide)

theorem w1_head : w1Body.toList.head? = some 'a' := by
  rw [w1_toList, show (1999 : Nat) = 1998 + 1 from rfl, List.replicate_succ]
  rfl

theorem w1_last : w1Body.toList.getLast? = some 'b' := by
  rw [w1_toList, show (500 : Nat) = 499 + 1 from rfl,
    List.getLast?_append_of_ne_nil _
      (by rw [List.replicate_succ]; exact List.cons_ne_nil _ _),
    getLast?_replicate_succ]

theorem w2_head : w2Body.toList.head? = some 'A' := by
  rw [w2_toList]; rfl

theorem w2_last : w2Body.toList.getLast? = some 'b' := by
  rw [w2_toList, show (2200 : Nat) = 2199 + 1 from rfl]
  have e : 'A' :: '.' :: ' ' :: List.replicate (2199 + 1) 'b'
      = ['A', '.', ' '] ++ List.replicate (2199 + 1) 'b' := rfl
  rw [e, List.getLast?_append_of_ne_nil _
      (by rw [List.replicate_succ]; exact List.cons_ne_nil _ _),
    getLast?_replicate_succ]

theorem pyStripList_w1 : pyStripList w1Body.toList = w1Body.toList := by
  refine pyStripList_eq_self ?_ ?_
  · intro c hc; rw [w1_head] at hc
    cases hc; decide
  · intro c hc; rw [w1_last] at hc
    cases hc; decide

theorem pyStripList_w2 : pyStripList w2Body.toList = w2Body.toList := by
  refine pyStripList_eq_self ?_ ?_
  · intro c hc; rw [w2_head] at hc
    cases hc; decide
  · intro c hc; rw [w2_last] at hc
    cases hc; decide

theorem strip_html_w1 : Gdelt.strip_html w1Body = w1Body := by
  show String.mk (pyStripList (stripTags w1Body.toList)) = w1Body
  rw [stripTags_of_not_mem w1_no_lt, pyStripList_w1]; rfl

theorem strip_html_w2 : Gdelt.strip_html w2Body = w2Body := by
  show String.mk (pyStripList (stripTags w2Body.toList)) = w2Body
  rw [stripTags_of_not_mem w2_no_lt, pyStripList_w2]; rfl

theorem w1_plain_len : (Gdelt.strip_html w1Body).length = 2501 := by
  rw [strip_html_w1]
  show w1Body.toList.length = 2501
  rw [w1_toList, List.length_append, List.length_append,
    List.length_replicate, List.length_replicate]
  decide

theorem w2_plain_len : (Gdelt.strip_html w2Body).length = 2203 := by
  rw [strip_html_w2]
  show w2Body.toList.length = 2203
  rw [w2_toList]
  show (List.replicate 2200 'b').length + 3 = 2203
  rw [List.length_replicate]

theorem corrected_w1 : Gdelt.correctedHtml w1Model "" = w1Body := by
  show String.mk (pyStripList w1Body.toList) = w1Body
  rw [pyStripList_w1]; rfl

theorem corrected_w2 : Gdelt.correctedHtml w2Model "" = w2Body := by
  show String.mk (pyStripList w2Body.toList) = w2Body
  rw [pyStripList_w2]; rfl

theorem sentSplit_w1 :
    Gdelt.sentSplit w1Body.toList
      = [List.replicate 1999 'a' ++ ['.'], List.replicate 500 'b'] := by
  rw [w1_toList]
  show Gdelt.sentSplitAux false [] none
    ((List.replicate 1999 'a' ++ ['.', ' ']) ++ List.replicate 500 'b') = _
  have e : (List.replicate 1999 'a' ++ ['.', ' ']) ++ List.replicate 500 'b'
      = List.replicate (1998 + 1) 'a' ++ ('.' :: ' ' :: List.replicate 500 'b') := by
    rw [show (1999 : Nat) = 1998 + 1 from rfl, List.append_assoc]
    rfl
  rw [e, sentSplitAux_run (by decide),
    sentSplitAux_nonspace (by decide),
    sentSplitAux_break (by decide) (by decide)]
  have e2 : List.replicate 500 'b' = List.replicate (499 + 1) 'b' ++ [] := by
    rw [List.append_nil, show (500 : Nat) = 499 + 1 from rfl]
  rw [e2, sentSplitAux_run (by decide), sentSplitAux_nil,
    List.append_nil, List.append_nil, List.reverse_cons, List.reverse_replicate,
    List.reverse_replicate, show (1998 + 1 : Nat) = 1999 from rfl,
    show (499 + 1 : Nat) = 500 from rfl]

theorem sentSplit_w2 :
    Gdelt.sentSplit w2Body.toList = [['A', '.'], List.replicate 2200 'b'] := by
  rw [w2_toList]
  show Gdelt.sentSplitAux false [] none
    ('A' :: '.' :: ' ' :: List.replicate 2200 'b') = _
  rw [sentSplitAux_nonspace (by decide), sentSplitAux_nonspace (by decide),
    sentSplitAux_break (by decide) (by decide)]
  have e2 : List.replicate 2200 'b' = List.replicate (2199 + 1) 'b' ++ [] := by
    rw [List.append_nil, show (2200 : Nat) = 2199 + 1 from rfl]
  rw [e2, sentSplitAux_run (by decide), sentSplitAux_nil,
    List.append_nil, List.reverse_replicate,
    show (2199 + 1 : Nat) = 2200 from rfl]
  rfl

theorem shrinkLoopF_step_pos {fuel : Nat} {ps : List (List Char)}
    (h : Gdelt.TARGET_MAX < (List.intercalate [' '] ps).length ∧ 1 < ps.length) :
    Gdelt.shrinkLoopF (fuel + 1) ps = Gdelt.shrinkLoopF fuel ps.dropLast := by
  simp only [Gdelt.shrinkLoopF]
  rw [if_pos h]

theorem shrinkLoopF_step_neg {fuel : Nat} {ps : List (List Char)}
    (h : ¬(Gdelt.TARGET_MAX < (List.intercalate [' '] ps).length ∧ 1 < ps.length)) :
    Gdelt.shrinkLoopF (fuel + 1) ps = ps := by
  simp only [Gdelt.shrinkLoopF]
  rw [if_neg h]

theorem shrink_w1 :
    Gdelt.shrinkLoop [List.replicate 1999 'a' ++ ['.'], List.replicate 500 'b']
      = [List.replicate 1999 'a' ++ ['.']] := by
  have hlen : (List.intercalate [' ']
      [List.replicate 1999 'a' ++ ['.'], List.replicate 500 'b']).length = 2501 := by
    rw [intercalate_pair, List.length_append, List.length_append, List.length_append,
      List.length_replicate, List.length_replicate]
    decide
  have hlen2 : (List.intercalate [' '] [List.replicate 1999 'a' ++ ['.']]).length
      = 2000 := by
    rw [intercalate_single, List.length_append, List.length_replicate]
    decide
  show Gdelt.shrinkLoopF (1 + 1)
    [List.replicate 1999 'a' ++ ['.'], List.replicate 500 'b'] = _
  rw [shrinkLoopF_step_pos ⟨by rw [hlen]; decide, by decide⟩,
    show List.dropLast [List.replicate 1999 'a' ++ ['.'], List.replicate 500 'b']
      = [List.replicate 1999 'a' ++ ['.']] from rfl,
    show (1 : Nat) = 0 + 1 from rfl,
    shrinkLoopF_step_neg (fun hc => absurd (hlen2 ▸ hc.1) (by decide))]

theorem shrink_w2 :
    Gdelt.shrinkLoop [['A', '.'], List.replicate 2200 'b'] = [['A', '.']] := by
  have hlen : (List.intercalate [' ']
      [['A', '.'], List.replicate 2200 'b']).length = 2203 := by
    rw [intercalate_pair, List.length_append, List.length_append,
      List.length_replicate]
    decide
  show Gdelt.shrinkLoopF (1 + 1) [['A', '.'], List.replicate 2200 'b'] = _
  rw [shrinkLoopF_step_pos ⟨by rw [hlen]; decide, by decide⟩,
    show List.dropLast [['A', '.'], List.replicate 2200 'b'] = [['A', '.']] from rfl,
    show (1 : Nat) = 0 + 1 from rfl,
    shrinkLoopF_step_neg (fun hc => absurd hc.1 (by decide))]

theorem shortened_w1 :
    Gdelt.shortenedOf (Gdelt.correctedHtml w1Model "")
      = List.replicate 1999 'a' ++ ['.'] := by
  rw [corrected_w1]
  show List.intercalate [' ']
    (Gdelt.shrinkLoop (Gdelt.sentSplit (Gdelt.strip_html w1Body).toList)) = _
  rw [strip_html_w1, sentSplit_w1, shrink_w1, intercalate_single]

theorem shortened_w2 :
    Gdelt.shortenedOf (Gdelt.correctedHtml w2Model "") = ['A', '.'] := by
  rw [corrected_w2]
  show List.intercalate [' ']
    (Gdelt.shrinkLoop (Gdelt.sentSplit (Gdelt.strip_html w2Body).toList)) = _
  rw [strip_html_w2, sentSplit_w2, shrink_w2, intercalate_single]

theorem shortened_w1_len :
    (Gdelt.shortenedOf (Gdelt.correctedHtml w1Model "")).length = 2000 := by
  rw [shortened_w1, List.length_append, List.length_replicate]
  decide

theorem shortened_w2_len :
    (Gdelt.shortenedOf (Gdelt.correctedHtml w2Model "")).length = 2 := by
  rw [shortened_w2]; rfl

theorem corrected_w1_plain_len :
    (Gdelt.strip_html (Gdelt.correctedHtml w1Model "")).length = 2501 := by
  rw [corrected_w1]; exact w1_plain_len

theorem corrected_w2_plain_len :
    (Gdelt.strip_html (Gdelt.correctedHtml w2Model "")).length = 2203 := by
  rw [corrected_w2]; exact w2_plain_len

theorem inRange_no_lt : '<' ∉ inRangeBody.toList := by
  show '<' ∉ List.replicate 1900 'a'
  intro h
  exact absurd (List.eq_of_mem_replicate h) (by decide)

theorem pyStripList_inRange : pyStripList inRangeBody.toList = inRangeBody.toList := by
  refine pyStripList_eq_self ?_ ?_
  · intro c hc
    rw [show inRangeBody.toList.head? = some 'a' by
      show (List.replicate 1900 'a').head? = some 'a'
      rw [show (1900 : Nat) = 1899 + 1 from rfl, List.replicate_succ]
      rfl] at hc
    cases hc; decide
  · intro c hc
    rw [show inRangeBody.toList.getLast? = some 'a' by
      show (List.replicate 1900 'a').getLast? = some 'a'
      rw [show (1900 : Nat) = 1899 + 1 from rfl]
      exact getLast?_replicate_succ 1899 'a'] at hc
    cases hc; decide

theorem inRange_plain_G : (Gdelt.strip_html inRangeBody).length = 1900 := by
  show (pyStripList (stripTags inRangeBody.toList)).length = 1900
  rw [stripTags_of_not_mem inRange_no_lt, pyStripList_inRange]
  show (List.replicate 1900 'a').length = 1900
  rw [List.length_replicate]

theorem inRange_plain_B : (Blogger.strip_html inRangeBody).length = 1900 := by
  show (stripTags inRangeBody.toList).length = 1900
  rw [stripTags_of_not_mem inRange_no_lt]
  show (List.replicate 1900 'a').length = 1900
  rw [List.length_replicate]

theorem mem_collapseSpaces {c : Char} :
    ∀ (l : List Char) (b : Bool), c ∈ collapseSpaces b l →
      c = '-' ∨ (c ∈ l ∧ pySpace c = false) := by
  intro l
  induction l with
  | nil => intro b h; simp [collapseSpaces] at h
  | cons d ds ih =>
    intro b h
    by_cases hd : pySpace d = true
    · cases b with
      | true =>
        rw [show collapseSpaces true (d :: ds) = collapseSpaces true ds from by
          simp [collapseSpaces, hd]] at h
        rcases ih true h with h1 | ⟨h2, h3⟩
        · exact Or.inl h1
        · exact Or.inr ⟨List.mem_cons_of_mem _ h2, h3⟩
      | false =>
        rw [show collapseSpaces false (d :: ds) = '-' :: collapseSpaces true ds from by
          simp [collapseSpaces, hd]] at h
        rcases List.mem_cons.mp h with h1 | h1
        · exact Or.inl h1
        · rcases ih true h1 with h2 | ⟨h3, h4⟩
          · exact Or.inl h2
          · exact Or.inr ⟨List.mem_cons_of_mem _ h3, h4⟩
    · have hd' : pySpace d = false := by simpa using hd
      rw [show collapseSpaces b (d :: ds) = d :: collapseSpaces false ds from by
        simp [collapseSpaces, hd']] at h
      rcases List.mem_cons.mp h with h1 | h1
      · subst h1; exact Or.inr ⟨List.mem_cons_self _ _, hd'⟩
      · rcases ih false h1 with h2 | ⟨h3, h4⟩
        · exact Or.inl h2
        · exact Or.inr ⟨List.mem_cons_of_mem _ h3, h4⟩

/-! The ten claims. -/

/-- A character usable inside the literal apostrophe of the example title. -/
def apostrophe : Char := Char.ofNat 39

/-- The example title from the specification, built around a literal
apostrophe character (code point 39). -/
def exampleTitle : String :=
  "Korea" ++ String.mk [apostrophe] ++ "s GDP Growth Surprises Economists!!"

/-- C5: slugify is a deterministic function that lowercases, strips
characters outside the class a-z, 0-9, hyphen and space, collapses
whitespace runs to single hyphens, trims leading and trailing hyphens,
truncates to 80 characters, and returns the fixed token `post` when the
result is empty; in particular the specification example title maps to
`koreas-gdp-growth-surprises-economists`. -/
theorem slugify_examples :
    slugify exampleTitle = "koreas-gdp-growth-surprises-economists"
    ∧ slugify "ABC" = "abc"
    ∧ slugify "a  b" = "a-b"
    ∧ slugify " -a- " = "a"
    ∧ (slugify (String.mk (List.replicate 100 'a'))).length = 80
    ∧ slugify "" = "post"
    ∧ slugify "!!!" = "post" := by decide

/-- C10: for every input string, slugify returns a non-empty string of at
most 80 characters drawn from a-z, 0-9 and hyphen only (in particular no
whitespace), so the generated output filename is a valid single path
component. -/
theorem slugify_valid (t : String) :
    slugify t ≠ ""
    ∧ (slugify t).length ≤ 80
    ∧ ∀ c, c ∈ (slugify t).toList →
        (('a' ≤ c ∧ c ≤ 'z') ∨ ('0' ≤ c ∧ c ≤ '9') ∨ c = '-') ∧ pySpace c = false := by
  by_cases hE : ((stripDashesList (collapseSpaces false
      ((t.toList.map Char.toLower).filter slugAllowed))).take 80).isEmpty
  · have hs : slugify t = "post" := by
      show (if ((stripDashesList (collapseSpaces false
          ((t.toList.map Char.toLower).filter slugAllowed))).take 80).isEmpty then "post"
        else String.mk ((stripDashesList (collapseSpaces false
          ((t.toList.map Char.toLower).filter slugAllowed))).take 80)) = "post"
      rw [if_pos hE]
    rw [hs]
    refine ⟨by decide, by decide, ?_⟩
    intro c hc
    rw [show ("post" : String).toList = ['p', 'o', 's', 't'] from rfl] at hc
    simp only [List.mem_cons, List.not_mem_nil, or_false] at hc
    rcases hc with rfl | rfl | rfl | rfl <;> exact ⟨by decide, by decide⟩
  · have hs : slugify t = String.mk ((stripDashesList (collapseSpaces false
        ((t.toList.map Char.toLower).filter slugAllowed))).take 80) := by
      show (if ((stripDashesList (collapseSpaces false
          ((t.toList.map Char.toLower).filter slugAllowed))).take 80).isEmpty then "post"
        else String.mk ((stripDashesList (collapseSpaces false
          ((t.toList.map Char.toLower).filter slugAllowed))).take 80)) = _
      rw [if_neg hE]
    refine ⟨?_, ?_, ?_⟩
    · rw [hs]
      intro h
      have hdata : (stripDashesList (collapseSpaces false
          ((t.toList.map Char.toLower).filter slugAllowed))).take 80 = [] :=
        congrArg String.data h
      exact hE (by rw [hdata]; rfl)
    · rw [hs]
      show ((stripDashesList (collapseSpaces false
        ((t.toList.map Char.toLower).filter slugAllowed))).take 80).length ≤ 80
      rw [List.length_take]
      exact min_le_left _ _
    · intro c hc
      rw [hs] at hc
      have hc' : c ∈ (stripDashesList (collapseSpaces false
          ((t.toList.map Char.toLower).filter slugAllowed))).take 80 := hc
      have hc2 : c ∈ stripDashesList (collapseSpaces false
          ((t.toList.map Char.toLower).filter slugAllowed)) :=
        (List.take_sublist _ _).subset hc'
      have hc3 : c ∈ collapseSpaces false
          ((t.toList.map Char.toLower).filter slugAllowed) := by
        unfold stripDashesList at hc2
        have s1 := List.mem_reverse.mp hc2
        have s2 := (List.dropWhile_sublist _).subset s1
        have s3 := List.mem_reverse.mp s2
        exact (List.dropWhile_sublist _).subset s3
      rcases mem_collapseSpaces _ _ hc3 with h1 | ⟨h2, h3⟩
      · subst h1; exact ⟨Or.inr (Or.inr rfl), by decide⟩
      · have hA : slugAllowed c = true := List.of_mem_filter h2
        refine ⟨?_, h3⟩
        simp only [slugAllowed, Bool.or_eq_true, Bool.and_eq_true,
          decide_eq_true_eq] at hA
        rcases hA with ((h | h) | h) | h
        · exact Or.inl h
        · exact Or.inr (Or.inl h)
        · exact Or.inr (Or.inr h)
        · exact absurd h3 (by rw [h]; decide)

/-- Witness for C10 at the concrete title `Hi there` and its character h. -/
theorem slugify_valid_w :
    (('a' ≤ 'h' ∧ 'h' ≤ 'z') ∨ ('0' ≤ 'h' ∧ 'h' ≤ '9') ∨ 'h' = '-')
    ∧ pySpace 'h' = false :=
  (slugify_valid "Hi there").2.2 'h' (by decide)

/-- C9: the tag stripper of src/main.py is idempotent — removing the
`<`…`>` spans never uncovers a new removable span. -/
theorem strip_html_idempotent (s : String) :
    Blogger.strip_html (Blogger.strip_html s) = Blogger.strip_html s := by
  show String.mk (stripTags (String.mk (stripTags s.toList)).toList)
    = String.mk (stripTags s.toList)
  rw [show (String.mk (stripTags s.toList)).toList = stripTags s.toList from rfl,
    stripTags_idem]

/-- C6 (amended): both variants delete exactly disjoint spans of the shape
`<` + non-empty `>`-free word + `>` and keep every other character, and the
output contains no further such span; the src/main.py variant returns exactly
the remaining text, while the src/Main.py variant additionally strips
leading and trailing whitespace from the remaining text. -/
theorem strip_html_spec (s : String) :
    TagRemoval s.toList (Blogger.strip_html s).toList
    ∧ NoSpan (Blogger.strip_html s).toList
    ∧ Gdelt.strip_html s = pyStrip (Blogger.strip_html s) := by
  refine ⟨?_, ?_, rfl⟩
  · exact stripTags_removal s.toList
  · intro p q h
    exact stripTags_clean s.toList p q h

/-- Witness for C6 at the input `a<b`, whose lone `<` has no closing `>`. -/
theorem strip_html_spec_w :
    TagRemoval "a<b".toList (Blogger.strip_html "a<b").toList
    ∧ findTagEnd ['b'] = none
    ∧ Gdelt.strip_html "a<b" = pyStrip (Blogger.strip_html "a<b") := by
  obtain ⟨h1, h2, h3⟩ := strip_html_spec "a<b"
  exact ⟨h1, h2 ['a'] ['b'] (by decide), h3⟩

/-- C6 counterexample: on the tag-free input consisting of a space, the
letter a and a space, the src/Main.py variant returns `a` rather than the
remaining text itself, because of its trailing `.strip()`. -/
theorem strip_html_trims_whitespace :
    Blogger.strip_html " a " = " a " ∧ Gdelt.strip_html " a " ≠ " a " := by decide

/-- C2: when the plain-text length already lies inside the target window,
length adjustment returns the input unchanged with zero corrective model
calls, and in every case at most one corrective model call is made — in
both the src/Main.py and the src/main.py variants. -/
theorem length_adjustment_call_discipline :
    (∀ (model : String → String) (html : String),
        Gdelt.TARGET_MIN ≤ (Gdelt.strip_html html).length ∧
          (Gdelt.strip_html html).length ≤ Gdelt.TARGET_MAX →
        Gdelt.adjust_length_with_model model html = (html, 0))
    ∧ (∀ (model : String → String) (html : String),
        (Gdelt.adjust_length_with_model model html).2 ≤ 1)
    ∧ (∀ (fixModel : String → String) (body : String),
        ¬((Blogger.strip_html body).length < Blogger.TARGET_MIN ∨
          Blogger.TARGET_MAX < (Blogger.strip_html body).length) →
        Blogger.lengthFix fixModel body = (body, 0))
    ∧ (∀ (fixModel : String → String) (body : String),
        (Blogger.lengthFix fixModel body).2 ≤ 1) := by
  refine ⟨?_, ?_, ?_, ?_⟩
  · intro model html h
    show (if Gdelt.TARGET_MIN ≤ (Gdelt.strip_html html).length ∧
        (Gdelt.strip_html html).length ≤ Gdelt.TARGET_MAX then ((html, 0) : String × Nat)
      else (Gdelt.adjustFallback (Gdelt.correctedHtml model html), 1)) = (html, 0)
    rw [if_pos h]
  · intro model html
    show (if Gdelt.TARGET_MIN ≤ (Gdelt.strip_html html).length ∧
        (Gdelt.strip_html html).length ≤ Gdelt.TARGET_MAX then ((html, 0) : String × Nat)
      else (Gdelt.adjustFallback (Gdelt.correctedHtml model html), 1)).2 ≤ 1
    split <;> simp
  · intro fixModel body h
    show (if (Blogger.strip_html body).length < Blogger.TARGET_MIN ∨
        Blogger.TARGET_MAX < (Blogger.strip_html body).length then
        ((pyStrip (fixModel (Blogger.fixPrompt body)), 1) : String × Nat)
      else (body, 0)) = (body, 0)
    rw [if_neg h]
  · intro fixModel body
    show (if (Blogger.strip_html body).length < Blogger.TARGET_MIN ∨
        Blogger.TARGET_MAX < (Blogger.strip_html body).length then
        ((pyStrip (fixModel (Blogger.fixPrompt body)), 1) : String × Nat)
      else (body, 0)).2 ≤ 1
    split <;> simp

/-- Witness for C2 at a body of plain length 1900, inside both windows. -/
theorem length_adjustment_call_discipline_w :
    Gdelt.adjust_length_with_model idModel inRangeBody = (inRangeBody, 0)
    ∧ Blogger.lengthFix idModel inRangeBody = (inRangeBody, 0) := by
  constructor
  · exact length_adjustment_call_discipline.1 idModel inRangeBody
      (by rw [inRange_plain_G]; exact ⟨by decide, by decide⟩)
  · exact length_adjustment_call_discipline.2.2.1 idModel inRangeBody
      (by rw [inRange_plain_B]; decide)

theorem checkEnvList_error (env : String → Option String) :
    ∀ L : List String, (∃ n, n ∈ L ∧ (env n).getD "" = "") →
      ∃ bad, bad ∈ L ∧ (env bad).getD "" = "" ∧
        Blogger.checkEnvList env L
          = Except.error ("❌ Missing environment variable: " ++ bad) := by
  intro L
  induction L with
  | nil =>
    rintro ⟨n, hn, -⟩
    exact absurd hn (List.not_mem_nil n)
  | cons m rest ih =>
    rintro ⟨n, hn, hv⟩
    by_cases hm : (env m).getD "" = ""
    · refine ⟨m, List.mem_cons_self _ _, hm, ?_⟩
      simp [Blogger.checkEnvList, Blogger.require_env, hm]
    · have hn' : n ∈ rest := by
        rcases List.mem_cons.mp hn with h | h
        · exact absurd hv (h ▸ hm)
        · exact h
      obtain ⟨bad, hb1, hb2, hb3⟩ := ih ⟨n, hn', hv⟩
      refine ⟨bad, List.mem_cons_of_mem _ hb1, hb2, ?_⟩
      simp [Blogger.checkEnvList, Blogger.require_env, hm, hb3]

/-- C4: a missing or empty required environment variable makes startup
terminate with an error message naming a missing variable, before any
client construction or network call (the checks run at module import in
src/main.py, and before the OpenAI client in src/Main.py); `SystemExit`
with a string message is a non-zero process exit in Python. -/
theorem missing_env_fails_fast :
    (∀ (env : String → Option String) (name : String),
        name ∈ Blogger.requiredEnvNames → (env name).getD "" = "" →
        ∃ bad, bad ∈ Blogger.requiredEnvNames ∧ (env bad).getD "" = "" ∧
          Blogger.checkEnv env
            = Except.error ("❌ Missing environment variable: " ++ bad))
    ∧ (∀ env : String → Option String, (env "OPENAI_API_KEY").getD "" = "" →
        Gdelt.startupCheck env = Except.error Gdelt.missingKeyMsg) := by
  constructor
  · intro env name hmem hval
    exact checkEnvList_error env Blogger.requiredEnvNames ⟨name, hmem, hval⟩
  · intro env h
    show (if (env "OPENAI_API_KEY").getD "" = "" then Except.error Gdelt.missingKeyMsg
      else Except.ok ()) = Except.error Gdelt.missingKeyMsg
    rw [if_pos h]

/-- An environment with every variable unset. -/
def envNone : String → Option String := fun _ => none

/-- Witness for C4 at the empty environment and the name CLIENT_ID. -/
theorem missing_env_fails_fast_w :
    (∃ bad, bad ∈ Blogger.requiredEnvNames ∧ (envNone bad).getD "" = "" ∧
      Blogger.checkEnv envNone
        = Except.error ("❌ Missing environment variable: " ++ bad))
    ∧ Gdelt.startupCheck envNone = Except.error Gdelt.missingKeyMsg :=
  ⟨missing_env_fails_fast.1 envNone "CLIENT_ID" (by decide) rfl,
    missing_env_fails_fast.2 envNone rfl⟩

theorem fetchAux_attempts (oracle : Nat → FetchOutcome) :
    ∀ (fuel i : Nat), (Gdelt.fetchAux oracle i fuel).2.2 ≤ i + fuel := by
  intro fuel
  induction fuel with
  | zero => intro i; simp [Gdelt.fetchAux]
  | succ fuel ih =>
    intro i
    have hrec := ih (i + 1)
    cases ho : oracle i with
    | response status body =>
      by_cases h200 : status = 200
      · cases body with
        | some j =>
          simp [Gdelt.fetchAux, ho, h200]
        | none =>
          simp [Gdelt.fetchAux, ho, h200]
          omega
      · by_cases h429 : status = 429
        · simp [Gdelt.fetchAux, ho, h200, h429]
          omega
        · simp [Gdelt.fetchAux, ho, h200, h429]
          omega
    | failure =>
      simp [Gdelt.fetchAux, ho]
      omega

theorem fetchAux_exhaust (oracle : Nat → FetchOutcome) :
    ∀ (fuel i : Nat),
      (∀ k, k < fuel → ∀ j, oracle (i + k) ≠ FetchOutcome.response 200 (some j)) →
      Gdelt.fetchAux oracle i fuel
        = (⟨[]⟩, (List.range fuel).filterMap (fun k => Gdelt.sleepOf (oracle (i + k))),
            i + fuel) := by
  intro fuel
  induction fuel with
  | zero =>
    intro i h
    simp [Gdelt.fetchAux]
  | succ fuel ih =>
    intro i h
    have h0 : ∀ j, oracle i ≠ FetchOutcome.response 200 (some j) := by
      have := h 0 (Nat.succ_pos _)
      simpa using this
    have hrec := ih (i + 1) (by
      intro k hk j
      have hx := h (k + 1) (by omega) j
      have e : i + (k + 1) = i + 1 + k := by omega
      rwa [e] at hx)
    have efun : ((fun k => Gdelt.sleepOf (oracle (i + k))) ∘ Nat.succ)
        = fun k => Gdelt.sleepOf (oracle (i + 1 + k)) := by
      funext k
      show Gdelt.sleepOf (oracle (i + Nat.succ k)) = Gdelt.sleepOf (oracle (i + 1 + k))
      have e : i + Nat.succ k = i + 1 + k := by omega
      rw [e]
    rw [List.range_succ_eq_map, List.filterMap_cons, List.filterMap_map, efun]
    have e2 : i + 1 + fuel = i + (fuel + 1) := by omega
    cases ho : oracle i with
    | response status body =>
      by_cases h200 : status = 200
      · subst h200
        cases body with
        | some j => exact absurd ho (h0 j)
        | none =>
          have e1 : Gdelt.fetchAux oracle i (fuel + 1)
              = ((Gdelt.fetchAux oracle (i + 1) fuel).1,
                 3 :: (Gdelt.fetchAux oracle (i + 1) fuel).2.1,
                 (Gdelt.fetchAux oracle (i + 1) fuel).2.2) := by
            simp [Gdelt.fetchAux, ho]
          rw [e1, hrec]
          simp [Gdelt.sleepOf, ho, e2]
      · by_cases h429 : status = 429
        · subst h429
          have e1 : Gdelt.fetchAux oracle i (fuel + 1)
              = ((Gdelt.fetchAux oracle (i + 1) fuel).1,
                 6 :: (Gdelt.fetchAux oracle (i + 1) fuel).2.1,
                 (Gdelt.fetchAux oracle (i + 1) fuel).2.2) := by
            simp [Gdelt.fetchAux, ho, h200]
          rw [e1, hrec]
          simp [Gdelt.sleepOf, ho, h200, e2]
        · have e1 : Gdelt.fetchAux oracle i (fuel + 1)
              = Gdelt.fetchAux oracle (i + 1) fuel := by
            simp [Gdelt.fetchAux, ho, h200, h429]
          rw [e1, hrec]
          simp [Gdelt.sleepOf, ho, h200, h429, e2]
    | failure =>
      have e1 : Gdelt.fetchAux oracle i (fuel + 1)
          = ((Gdelt.fetchAux oracle (i + 1) fuel).1,
             3 :: (Gdelt.fetchAux oracle (i + 1) fuel).2.1,
             (Gdelt.fetchAux oracle (i + 1) fuel).2.2) := by
        simp [Gdelt.fetchAux, ho]
      rw [e1, hrec]
      simp [Gdelt.sleepOf, ho, e2]

/-- C3 (amended): fetch_gdelt attempts the request at most 3 times; when no
attempt yields a 200 response with parseable JSON, all 3 attempts are made,
the fallback result with an empty articles list is returned instead of an
error being raised, and the sleeps performed are exactly 6 seconds after a
429 response and 3 seconds after a raised exception or a JSON parse
failure — other non-200 statuses retry immediately with no sleep. -/
theorem fetch_gdelt_bounded_retry (oracle : Nat → FetchOutcome) :
    (Gdelt.fetch_gdelt oracle).2.2 ≤ 3
    ∧ ((∀ i, i < 3 → ∀ j, oracle i ≠ FetchOutcome.response 200 (some j)) →
        Gdelt.fetch_gdelt oracle
          = (⟨[]⟩, (List.range 3).filterMap (fun i => Gdelt.sleepOf (oracle i)), 3)) := by
  constructor
  · have h := fetchAux_attempts oracle 3 0
    simpa using h
  · intro h
    have hh : ∀ k, k < 3 → ∀ j, oracle (0 + k) ≠ FetchOutcome.response 200 (some j) := by
      intro k hk j
      simpa using h k hk j
    have he := fetchAux_exhaust oracle 3 0 hh
    simpa using he

/-- An oracle whose every attempt returns HTTP status 500. -/
def oracle500 : Nat → FetchOutcome := fun _ => FetchOutcome.response 500 none

/-- An oracle whose every attempt raises a request exception. -/
def oracleTimeout : Nat → FetchOutcome := fun _ => FetchOutcome.failure

/-- C3 counterexample: when every attempt returns HTTP 500, fetch_gdelt
makes all 3 attempts and returns the empty fallback, but performs no sleep
at all — refuting the claim that it sleeps a fixed duration between
attempts on any non-200 status. -/
theorem fetch_gdelt_no_sleep_on_500 :
    Gdelt.fetch_gdelt oracle500 = ({ articles := [] }, ([] : List Nat), 3) := by decide

/-- Witness for C3 at the always-failing oracle: 3 attempts, empty result,
and one 3-second sleep per raised exception. -/
theorem fetch_gdelt_bounded_retry_w :
    (Gdelt.fetch_gdelt oracleTimeout).2.2 ≤ 3
    ∧ Gdelt.fetch_gdelt oracleTimeout = ({ articles := [] }, [3, 3, 3], 3) := by
  have h2 := (fetch_gdelt_bounded_retry oracleTimeout).2
    (by intro i hi j; simp [oracleTimeout])
  exact ⟨(fetch_gdelt_bounded_retry oracleTimeout).1, by rw [h2]; decide⟩

/-- C7: when the fetch stage yields an empty article list, main returns
after the fetch stage alone — the generation, image, render and save stages
are never invoked. -/
theorem empty_fetch_short_circuits (fetchO : Nat → FetchOutcome)
    (genO : List Article → String → DraftMeta) (fixO imgO : String → String)
    (dateStr : String)
    (h : ((Gdelt.fetch_gdelt fetchO).1).articles = []) :
    Gdelt.mainRun fetchO genO fixO imgO dateStr = (none, [Stage.fetch]) := by
  simp [Gdelt.mainRun, h]

/-- An oracle for the witness run whose every attempt raises. -/
def oracleDown : Nat → FetchOutcome := fun _ => FetchOutcome.failure

/-- A draft-model oracle returning an empty draft. -/
def genONone : List Article → String → DraftMeta :=
  fun _ _ => ⟨"", "", "", "", "", ""⟩

/-- Witness for C7: a run whose fetch attempts all raise stops after the
fetch stage. -/
theorem empty_fetch_short_circuits_w :
    Gdelt.mainRun oracleDown genONone idModel idModel "2026-10-12"
      = (none, [Stage.fetch]) :=
  empty_fetch_short_circuits oracleDown genONone idModel idModel "2026-10-12" (by decide)

/-- C1 (amended): when the input is outside the window and the corrected
draft still exceeds the ceiling, and the sentence-truncated plain text
lands inside the window (at least TARGET_MIN — otherwise the corrected
draft is returned unchanged — and at most TARGET_MAX — which can only fail
when a single overlong sentence remains), adjust_length_with_model returns
the truncated text wrapped as a single paragraph inside a section element,
and the plain-text length of that result is at most TARGET_MAX. -/
theorem adjust_fallback_wraps (model : String → String) (html : String)
    (h0 : ¬(Gdelt.TARGET_MIN ≤ (Gdelt.strip_html html).length ∧
        (Gdelt.strip_html html).length ≤ Gdelt.TARGET_MAX))
    (h1 : Gdelt.TARGET_MAX < (Gdelt.strip_html (Gdelt.correctedHtml model html)).length)
    (h2 : Gdelt.TARGET_MIN ≤ (Gdelt.shortenedOf (Gdelt.correctedHtml model html)).length)
    (h3 : (Gdelt.shortenedOf (Gdelt.correctedHtml model html)).length ≤ Gdelt.TARGET_MAX) :
    (Gdelt.adjust_length_with_model model html).1
      = "<section><p>" ++ String.mk (Gdelt.shortenedOf (Gdelt.correctedHtml model html))
        ++ "</p></section>"
    ∧ (Gdelt.strip_html (Gdelt.adjust_length_with_model model html).1).length
        ≤ Gdelt.TARGET_MAX := by
  have hres : (Gdelt.adjust_length_with_model model html).1
      = "<section><p>" ++ String.mk (Gdelt.shortenedOf (Gdelt.correctedHtml model html))
        ++ "</p></section>" := by
    show (if Gdelt.TARGET_MIN ≤ (Gdelt.strip_html html).length ∧
        (Gdelt.strip_html html).length ≤ Gdelt.TARGET_MAX then ((html, 0) : String × Nat)
      else (Gdelt.adjustFallback (Gdelt.correctedHtml model html), 1)).1 = _
    rw [if_neg h0]
    show Gdelt.adjustFallback (Gdelt.correctedHtml model html) = _
    unfold Gdelt.adjustFallback
    rw [if_pos h1, if_pos h2]
  refine ⟨hres, ?_⟩
  rw [hres]
  have hlist : ("<section><p>"
      ++ String.mk (Gdelt.shortenedOf (Gdelt.correctedHtml model html))
      ++ "</p></section>").toList
      = openShell ++ (Gdelt.shortenedOf (Gdelt.correctedHtml model html) ++ closeShell) := by
    show ("<section><p>"
      ++ String.mk (Gdelt.shortenedOf (Gdelt.correctedHtml model html))
      ++ "</p></section>").data = _
    rw [String.data_append, String.data_append, List.append_assoc]
    rfl
  show (pyStripList (stripTags (("<section><p>"
      ++ String.mk (Gdelt.shortenedOf (Gdelt.correctedHtml model html))
      ++ "</p></section>").toList))).length ≤ Gdelt.TARGET_MAX
  rw [hlist]
  have hb := pyStripList_length_le
    (stripTags (openShell ++ (Gdelt.shortenedOf (Gdelt.correctedHtml model html) ++ closeShell)))
  have hs := stripTags_shell_length_le (Gdelt.shortenedOf (Gdelt.correctedHtml model html))
  rw [List.append_assoc] at hs
  omega

/-- Witness for C1 at a corrected draft of plain length 2501 whose
sentence truncation has length 2000. -/
theorem adjust_fallback_wraps_w :
    (Gdelt.adjust_length_with_model w1Model "").1
      = "<section><p>" ++ String.mk (Gdelt.shortenedOf (Gdelt.correctedHtml w1Model ""))
        ++ "</p></section>"
    ∧ (Gdelt.strip_html (Gdelt.adjust_length_with_model w1Model "").1).length
        ≤ Gdelt.TARGET_MAX :=
  adjust_fallback_wraps w1Model "" (by decide)
    (by rw [corrected_w1_plain_len]; decide)
    (by rw [shortened_w1_len]; decide)
    (by rw [shortened_w1_len]; decide)

theorem adjust_out_of_range (model : String → String) (html : String)
    (h0 : ¬(Gdelt.TARGET_MIN ≤ (Gdelt.strip_html html).length ∧
        (Gdelt.strip_html html).length ≤ Gdelt.TARGET_MAX)) :
    (Gdelt.adjust_length_with_model model html).1
      = Gdelt.adjustFallback (Gdelt.correctedHtml model html) := by
  show (if Gdelt.TARGET_MIN ≤ (Gdelt.strip_html html).length ∧
      (Gdelt.strip_html html).length ≤ Gdelt.TARGET_MAX then ((html, 0) : String × Nat)
    else (Gdelt.adjustFallback (Gdelt.correctedHtml model html), 1)).1 = _
  rw [if_neg h0]

theorem adjustFallback_below_min {nh : String}
    (h1 : Gdelt.TARGET_MAX < (Gdelt.strip_html nh).length)
    (h2 : (Gdelt.shortenedOf nh).length < Gdelt.TARGET_MIN) :
    Gdelt.adjustFallback nh = nh := by
  unfold Gdelt.adjustFallback
  rw [if_pos h1, if_neg (by omega)]

theorem adjust_w2_keeps : (Gdelt.adjust_length_with_model w2Model "").1 = w2Body := by
  rw [adjust_out_of_range w2Model "" (by decide),
    adjustFallback_below_min (by rw [corrected_w2_plain_len]; decide)
      (by rw [shortened_w2_len]; decide), corrected_w2]

/-- C1 counterexample: a corrected draft of plain length 2203 (one short
sentence, then one 2200-character sentence) still exceeds the ceiling, yet
adjust_length_with_model returns it unchanged with plain length 2203 above
TARGET_MAX, because the sentence truncation fell below TARGET_MIN. -/
theorem adjust_fallback_exceeds_ceiling :
    Gdelt.TARGET_MAX < (Gdelt.strip_html (Gdelt.correctedHtml w2Model "")).length
    ∧ Gdelt.TARGET_MAX
        < (Gdelt.strip_html (Gdelt.adjust_length_with_model w2Model "").1).length := by
  constructor
  · rw [corrected_w2_plain_len]; decide
  · rw [adjust_w2_keeps, w2_plain_len]; decide

/-- C8: when the corrected draft still exceeds the ceiling but the
sentence-truncated plain text is shorter than TARGET_MIN, the hard
truncation is not applied: adjust_length_with_model returns the corrected
draft as-is, even though its plain-text length still exceeds TARGET_MAX. -/
theorem adjust_below_min_returns_model_output (model : String → String) (html : String)
    (h0 : ¬(Gdelt.TARGET_MIN ≤ (Gdelt.strip_html html).length ∧
        (Gdelt.strip_html html).length ≤ Gdelt.TARGET_MAX))
    (h1 : Gdelt.TARGET_MAX < (Gdelt.strip_html (Gdelt.correctedHtml model html)).length)
    (h2 : (Gdelt.shortenedOf (Gdelt.correctedHtml model html)).length < Gdelt.TARGET_MIN) :
    (Gdelt.adjust_length_with_model model html).1 = Gdelt.correctedHtml model html
    ∧ Gdelt.TARGET_MAX
        < (Gdelt.strip_html (Gdelt.adjust_length_with_model model html).1).length := by
  have hres : (Gdelt.adjust_length_with_model model html).1
      = Gdelt.correctedHtml model html := by
    show (if Gdelt.TARGET_MIN ≤ (Gdelt.strip_html html).length ∧
        (Gdelt.strip_html html).length ≤ Gdelt.TARGET_MAX then ((html, 0) : String × Nat)
      else (Gdelt.adjustFallback (Gdelt.correctedHtml model html), 1)).1 = _
    rw [if_neg h0]
    show Gdelt.adjustFallback (Gdelt.correctedHtml model html) = _
    unfold Gdelt.adjustFallback
    rw [if_pos h1, if_neg (by omega)]
  exact ⟨hres, by rw [hres]; exact h1⟩

/-- Witness for C8 at the corrected draft of plain length 2203 whose
sentence truncation has length 2. -/
theorem adjust_below_min_returns_model_output_w :
    (Gdelt.adjust_length_with_model w2Model "").1 = Gdelt.correctedHtml w2Model ""
    ∧ Gdelt.TARGET_MAX
        < (Gdelt.strip_html (Gdelt.adjust_length_with_model w2Model "").1).length :=
  adjust_below_min_returns_model_output w2Model "" (by decide)
    (by rw [corrected_w2_plain_len]; decide)
    (by rw [shortened_w2_len]; decide)

end AutoBlogger
